import Mathlib

/-!
realize: process supervision and build pipeline (exec.go)

A shallow embedding of `exec.go` (`goCompile`, `goRun`, `command`, `goTool`) and of
`Settings.fatal` from `settings_windows.go`.

Go strings are Lean strings.  A Go `error` value is an `Option String`: `none` is `nil`,
`some e` is an error whose `Error()` text is `e`.  The operating system (the file system,
the spawned process, the stop channel) is an explicit input of every function; what the
function does to it (the command it builds, the kill it issues, the records it stamps) is
an explicit output.  Timestamps and terminal colours are not modelled.
-/

set_option linter.dupNamespace false
set_option linter.unusedVariables false

namespace Realize

/-- Go error value: `none` is nil. -/
abbrev Err := Option String

/-! ## The parts of the Go standard library that exec.go calls (Unix path syntax) -/

namespace strings

/-- Worker of `Replace`: `skip` characters of a matched occurrence remain to be dropped. -/
def replaceGo (old new : List Char) : Nat → List Char → List Char
  | _, [] => if old = [] then new else []
  | skip + 1, _ :: cs => replaceGo old new skip cs
  | 0, c :: cs =>
    if old = [] then new ++ c :: replaceGo old new 0 cs
    else if old.isPrefixOf (c :: cs) then new ++ replaceGo old new (old.length - 1) cs
    else c :: replaceGo old new 0 cs

/-- Go strings.Replace(s, old, new, -1): every non-overlapping occurrence is replaced. -/
def Replace (s old new : String) : String :=
  ⟨replaceGo old.data new.data 0 s.data⟩

/-- Worker of `Split` for a non-empty separator; `cur` is the current piece, reversed. -/
def splitGo (sep : List Char) : Nat → List Char → List Char → List (List Char)
  | _, cur, [] => [cur.reverse]
  | skip + 1, cur, _ :: cs => splitGo sep skip cur cs
  | 0, cur, c :: cs =>
    if sep.isPrefixOf (c :: cs) then cur.reverse :: splitGo sep (sep.length - 1) [] cs
    else splitGo sep 0 (c :: cur) cs

/-- Go strings.Split(s, sep): the pieces between the occurrences of `sep` (always at least
one piece when `sep` is not empty); an empty `sep` explodes `s` into its characters. -/
def Split (s sep : String) : List String :=
  if sep.data = [] then s.data.map (fun c => String.mk [c])
  else (splitGo sep.data 0 [] s.data).map String.mk

/-- Go strings.Contains(s, substr) on character lists. -/
def containsGo (sub : List Char) : List Char → Bool
  | [] => sub.isEmpty
  | c :: cs => sub.isPrefixOf (c :: cs) || containsGo sub cs

/-- Go strings.Contains(s, substr): `substr` occurs somewhere in `s`. -/
def Contains (s substr : String) : Bool := containsGo substr.data s.data

/-- Go strings.HasPrefix(s, p). -/
def StartsWith (s p : String) : Bool := p.data.isPrefixOf s.data

/-- Go strings.HasSuffix(s, suffix). -/
def HasSuffix (s suffix : String) : Bool := suffix.data.isSuffixOf s.data

/-- Go unicode.IsSpace. -/
def isSpace (c : Char) : Bool :=
  let n := c.toNat
  (9 ≤ n && n ≤ 13) || n = 32 || n = 0x85 || n = 0xA0 || n = 0x1680 ||
  (0x2000 ≤ n && n ≤ 0x200A) || n = 0x2028 || n = 0x2029 || n = 0x202F ||
  n = 0x205F || n = 0x3000

/-- Worker of `Fields`; `cur` is the current field, reversed. -/
def fieldsGo : List Char → List Char → List (List Char)
  | cur, [] => if cur = [] then [] else [cur.reverse]
  | cur, c :: cs =>
    if isSpace c then
      (if cur = [] then fieldsGo [] cs else cur.reverse :: fieldsGo [] cs)
    else fieldsGo (c :: cur) cs

/-- Go strings.Fields(s): the maximal runs of non-space characters. -/
def Fields (s : String) : List String := (fieldsGo [] s.data).map String.mk

end strings

namespace filepath

/-- One step of the lexical clean-up: `stack` holds the kept elements, innermost first. -/
def cleanStep (rooted : Bool) (stack : List String) (elem : String) : List String :=
  if elem = ".." then
    match stack with
    | [] => if rooted then [] else [".."]
    | top :: rest => if top = ".." then ".." :: top :: rest else rest
  else elem :: stack

/-- Go filepath.Clean: no repeated separators, no `.` elements, no inner `..` elements,
no `..` at the start of a rooted path; the empty path becomes `.`. -/
def Clean (path : String) : String :=
  let rooted := strings.StartsWith path "/"
  let elems := (strings.Split path "/").filter (fun e => e ≠ "" ∧ e ≠ ".")
  let kept := (elems.foldl (cleanStep rooted) []).reverse
  let body := String.intercalate "/" kept
  if rooted then "/" ++ body else if body = "" then "." else body

/-- Go filepath.Join: the non-empty elements joined by the separator, then cleaned; the
empty string when there is no non-empty element. -/
def Join (elem : List String) : String :=
  match elem.filter (fun e => e ≠ "") with
  | [] => ""
  | es => Clean (String.intercalate "/" es)

/-- Drop the trailing separators of a reversed path. -/
def dropSlashes : List Char → List Char
  | [] => []
  | c :: cs => if c = '/' then dropSlashes cs else c :: cs

/-- Go filepath.Base: the last element of the path; `.` for the empty path and `/` for a
path of separators only. -/
def Base (path : String) : String :=
  if path.data = [] then "."
  else
    let r := dropSlashes path.data.reverse
    if r = [] then "/"
    else ⟨(r.takeWhile (fun c => c ≠ '/')).reverse⟩

/-- Go filepath.Dir: everything up to the last separator, cleaned. -/
def Dir (path : String) : String :=
  Clean ⟨(path.data.reverse.dropWhile (fun c => c ≠ '/')).reverse⟩

end filepath

/-! ## Data model -/

/-- exec.Cmd as built by exec.Command(name, arg...) and configured before Start. -/
structure Cmd where
  /-- argument vector; its head is the program name -/
  Args : List String
  /-- working directory -/
  Dir : String
  deriving DecidableEq, Repr

/-- exec.Command(name, arg...). -/
def exec.Command (name : String) (arg : List String) : Cmd :=
  { Args := name :: arg, Dir := "" }

/-- Which case of the final `select` of command, goCompile and goTool is taken. -/
inductive Select where
  /-- a value arrived on the stop channel first -/
  | stop
  /-- cmd.Wait() returned first: nil for a zero exit, an error for a non-zero exit or for a
  process that could not be run -/
  | done (err : Err)
  deriving DecidableEq, Repr

/-- The fields of Project that exec.go reads. -/
structure Project where
  Name : String
  base : String
  path : String
  Args : List String
  ErrorOutputPattern : String
  deriving DecidableEq, Repr

/-- An additional command and its optional working directory. -/
structure Command where
  Command : String
  Path : String
  deriving DecidableEq, Repr

/-! ## Project.command -/

/-- Outcome of one call of Project.command. -/
structure CommandResult where
  /-- the command handed to Start -/
  exec : Cmd
  /-- whether exec.Process.Kill() was called -/
  killed : Bool
  /-- the returned pair -/
  ret : String × String
  deriving DecidableEq, Repr

/-- The single-quote character. -/
def quote : Char := Char.ofNat 39

/-- The double-quote character. -/
def dquote : Char := Char.ofNat 34

/-- The inner expression of the first line of Project.command: both quote characters are
replaced by the empty string. -/
def stripQuotes (s : String) : String :=
  strings.Replace (strings.Replace s (String.singleton quote) "") (String.singleton dquote) ""

/-- The argument list computed on the first line of Project.command. -/
def commandArgs (cmd : Command) : List String :=
  strings.Split (stripQuotes cmd.Command) " "

/-- The working directory chosen by Project.command. -/
def commandDir (p : Project) (cmd : Command) : String :=
  if cmd.Path ≠ "" then
    if strings.Contains cmd.Path p.base then cmd.Path
    else filepath.Join [p.base, cmd.Path]
  else p.base

/-- Project.command: `sel` is the select case taken, `stdout` and `stderr` the captured
buffers at that moment.  `none` stands for the index panic of `args[0]` on an empty list
(which strings.Split never returns).  The stop case is the one of a process that Start
created. -/
def Project.command (p : Project) (sel : Select) (stdout stderr : String) (cmd : Command) :
    Option CommandResult :=
  match commandArgs cmd with
  | [] => none
  | name :: rest =>
    let exec := { exec.Command name rest with Dir := commandDir p cmd }
    match sel with
    | .stop => some { exec := exec, killed := true, ret := ("", "") }
    | .done (some _) => some { exec := exec, killed := false, ret := (stderr, stdout) }
    | .done none => some { exec := exec, killed := false, ret := ("", stdout) }

/-! ## Project.goCompile -/

/-- Outcome of one call of goCompile. -/
structure CompileResult where
  /-- the value os.Setenv stored in GOBIN; `none` when Setenv failed -/
  gobin : Option String
  /-- the command handed to Start; `none` when goCompile returned before building it -/
  cmd : Option Cmd
  /-- whether a kill signal was sent to the process -/
  killed : Bool
  /-- the returned pair; `none` when goCompile does not return but panics -/
  ret : Option (String × Err)
  deriving DecidableEq, Repr

/-- The error returned by cmd.Wait(): `exec: not started` when Start failed, so that
cmd.Process is nil, and the result `err` of the process otherwise. -/
def waitResult (start err : Err) : Err :=
  match start with
  | some _ => some "exec: not started"
  | none => err

/-- Project.goCompile: `gopath` is getEnvPath("GOPATH"), `setenv` the error returned by
os.Setenv, `start` the error returned by cmd.Start() (which the source drops), `sel` the
select case taken, `out` and `stderr` the captured buffers. -/
def Project.goCompile (p : Project) (gopath : String) (setenv start : Err) (sel : Select)
    (out stderr : String) (args : List String) : CompileResult :=
  match setenv with
  | some e => { gobin := none, cmd := none, killed := false, ret := some ("", some e) }
  | none =>
    let gobin := filepath.Join [gopath, "bin"]
    let cmd := { exec.Command "go" args with Dir := p.base }
    match sel with
    | .stop =>
      match start with
      | none =>
        { gobin := some gobin, cmd := some cmd, killed := true, ret := some ("killed", none) }
      | some _ =>
        -- cmd.Process is nil: cmd.Process.Kill() is a nil dereference
        { gobin := some gobin, cmd := some cmd, killed := false, ret := none }
    | .done err =>
      match waitResult start err with
      | some e =>
        { gobin := some gobin, cmd := some cmd, killed := false, ret := some (stderr, some e) }
      | none =>
        { gobin := some gobin, cmd := some cmd, killed := false, ret := some ("", none) }

/-! ## Project.goTool -/

/-- The fields of a tool that goTool reads and writes. -/
structure tool where
  cmd : String
  options : List String
  dir : Bool
  status : Bool
  err : String
  deriving DecidableEq, Repr

/-- Outcome of one call of goTool. -/
structure ToolResult where
  /-- number of wg.Done() calls -/
  wgDone : Nat
  /-- the command handed to Start, if one was built -/
  cmd : Option Cmd
  /-- whether cmd.Process.Kill() was called -/
  killed : Bool
  /-- the values sent on the result channel, in order -/
  result : List tool
  deriving DecidableEq, Repr

/-- The body of goTool, without the deferred wg.Done().  `ext` is the helper of the same
name (declared outside exec.go), `sel` the select case taken, `out` and `stderr` the
captured buffers.  The stop case is the one of a process that Start created. -/
def goToolBody (ext : String → String) (p : Project) (sel : Select) (out stderr : String)
    (path : String) (t : tool) : ToolResult :=
  let nothing : ToolResult := { wgDone := 0, cmd := none, killed := false, result := [] }
  if t.status then
    if strings.HasSuffix path ".go" || strings.HasSuffix path "" then
      let t1 := if strings.HasSuffix path ".go" then { t with options := t.options ++ [path] } else t
      let path1 := if strings.HasSuffix path ".go" then p.base else path
      if ext path1 = "" ∨ ext path1 = "go" then
        let path2 := if t1.dir then filepath.Dir path1 else path1
        let cmd := { exec.Command t1.cmd t1.options with Dir := path2 }
        match sel with
        | .stop => { wgDone := 0, cmd := some cmd, killed := true, result := [] }
        | .done (some _) =>
          { wgDone := 0, cmd := some cmd, killed := false,
            result := [{ t1 with err := stderr ++ out }] }
        | .done none => { wgDone := 0, cmd := some cmd, killed := false, result := [] }
      else nothing
    else nothing
  else nothing

/-- Project.goTool: the body, then the deferred wg.Done(). -/
def Project.goTool (ext : String → String) (p : Project) (sel : Select) (out stderr : String)
    (path : String) (t : tool) : ToolResult :=
  let r := goToolBody ext p sel out stderr path t
  { r with wgDone := r.wgDone + 1 }

/-- The guard of goTool under which a command is run: the extension of the path the command
is run for (the project base for a `.go` file, the path itself otherwise) is empty or `go`. -/
def applicable (ext : String → String) (p : Project) (path : String) : Prop :=
  ext (if strings.HasSuffix path ".go" then p.base else path) = "" ∨
  ext (if strings.HasSuffix path ".go" then p.base else path) = "go"

/-! ## Settings.fatal and Project.goRun -/

/-- Settings.fatal: the operands handed to log.Fatalln, which prints them and ends the
program with status 1; `none` when fatal returns without doing anything. -/
def Settings.fatal (err : Err) (msg : List String) : Option (List String) :=
  if 0 < msg.length ∧ err ≠ none then some (msg ++ [err.getD ""])
  else if err ≠ none then some [err.getD ""]
  else none

/-- A compiled regular expression, seen through MatchString. -/
structure Regexp where
  MatchString : String → Bool

/-- BufferOut without its timestamp. -/
structure BufferOut where
  Text : String
  /-- the field Type of the source -/
  Typ : String
  deriving DecidableEq, Repr

/-- One call p.stamp(category, out, msg, ""): the category and the record. -/
structure Stamp where
  category : String
  out : BufferOut
  deriving DecidableEq, Repr

/-- The two streams of the supervised process that goRun reads. -/
inductive Stream where
  /-- execOutput, the scanner over build.StdoutPipe() -/
  | stdout
  /-- execError, the scanner over build.StderrPipe() -/
  | stderr
  deriving DecidableEq, Repr

/-- The select case that ends the wait loop of goRun. -/
inductive Wake where
  | stop
  | stopOutput
  | stopError
  deriving DecidableEq, Repr

/-- Everything outside goRun that its run depends on. -/
structure RunWorld where
  /-- regexp.Compile: the compiled expression or the text of the error -/
  compile : String → Except String Regexp
  /-- the error returned by os.Stat for a path (`none`: the file exists) -/
  stat : String → Err
  /-- getEnvPath("GOBIN") -/
  gobin : String
  /-- the error returned by build.StdoutPipe() -/
  stdoutPipe : Err
  /-- the error returned by build.StderrPipe() -/
  stderrPipe : Err
  /-- the error returned by build.Start() -/
  start : Err
  /-- the lines of the process that the two scanner goroutines stamp before the deferred
  function of goRun stamps its record, each with the stream it was read from, in the order
  in which they are stamped -/
  early : List (Stream × String)
  /-- the lines that the two scanner goroutines, which goRun never joins, stamp after the
  deferred function has stamped its record -/
  late : List (Stream × String)
  /-- the select case that ends the wait loop -/
  wake : Wake
  /-- the error returned by build.Process.Kill() on a started process -/
  kill : Err

/-- How the goroutine running goRun ends. -/
inductive Exit where
  /-- goRun returned to its caller -/
  | returned
  /-- log.Fatalln ended the program -/
  | fatal
  /-- a nil dereference -/
  | panic
  deriving DecidableEq, Repr

/-- What goRun has done when it ends. -/
structure RunResult where
  /-- p.path -/
  path : String
  /-- the records appended to p.Buffer.StdLog -/
  stdLog : List BufferOut
  /-- the calls of p.stamp made by goRun and by the scanner goroutines it starts, in order -/
  stamps : List Stamp
  /-- the calls of p.fatal, in order: the error and the messages -/
  fatals : List (Err × List String)
  /-- the lines printed with log.Println -/
  logged : List String
  /-- the command built by exec.Command; `none` is the nil pointer -/
  build : Option Cmd
  /-- whether build.Start() succeeded, so that build.Process is not nil -/
  started : Bool
  /-- whether close(runner) was executed -/
  runner : Bool
  /-- the number of signals Kill sent to the process -/
  kills : Nat
  exit : Exit
  deriving DecidableEq, Repr

/-- The closure isErrorText after regexp.Compile has been tried. -/
def isErrorText (compiled : Except String Regexp) : String → Bool :=
  match compiled with
  | .error _ => fun _ => false
  | .ok errRegexp => fun t => errRegexp.MatchString t

/-- The body of the loop of the closure scanner, for one line. -/
def scanLine (isErrorText : String → Bool) (isError : Bool) (text : String) : Stamp :=
  if isError && !isErrorText text then
    { category := "error", out := { Text := text, Typ := "Go Run" } }
  else
    { category := "out", out := { Text := text, Typ := "Go Run" } }

/-- The closure scanner of goRun run over the lines of one stream (closing its channel at
the end of the stream is the wake-up of `RunWorld`). -/
def scanner (isErrorText : String → Bool) (output : List String) (isError : Bool) :
    List Stamp :=
  output.map (scanLine isErrorText isError)

/-- The record stamped last by the deferred function of goRun. -/
def ended : Stamp := { category := "log", out := { Text := "Ended", Typ := "Go Run" } }

/-- The deferred function of goRun. -/
def teardown (w : RunWorld) (r : RunResult) : RunResult :=
  if r.started then
    match w.kill with
    | some e =>
      let r1 : RunResult := { r with
        kills := r.kills + 1
        stdLog := r.stdLog ++ [{ Text := "Failed to stop: " ++ e, Typ := "" }]
        fatals := r.fatals ++ [(some e, ["Failed to stop", ":"])] }
      match Settings.fatal (some e) ["Failed to stop", ":"] with
      | some _ => { r1 with exit := .fatal }
      | none => { r1 with stamps := r1.stamps ++ [ended], exit := .returned }
    | none => { r with kills := r.kills + 1, stamps := r.stamps ++ [ended], exit := .returned }
  else
    -- build.Process is nil
    { r with exit := .panic }

/-- The lines of one stream among the lines of the process. -/
def linesOf (stream : Stream) (lines : List (Stream × String)) : List String :=
  (lines.filter (fun l => l.1 = stream)).map Prod.snd

/-- The records of the two scanner goroutines in the order in which they are stamped:
`order` names, for each record in turn, the stream whose scanner stamps it. -/
def interleave : List Stream → List Stamp → List Stamp → List Stamp
  | .stdout :: order, o :: outs, errs => o :: interleave order outs errs
  | .stderr :: order, outs, e :: errs => e :: interleave order outs errs
  | _, _, _ => []

/-- The record stamped when regexp.Compile fails; nothing when it succeeds. -/
def compileRecord (compiled : Except String Regexp) : List Stamp :=
  match compiled with
  | .error e => [{ category := "error", out := { Text := e, Typ := "Go Run" } }]
  | .ok _ => []

/-- The part of goRun that follows the search for the binary. -/
def supervise (w : RunWorld) (isErrorText : String → Bool) (r : RunResult) : RunResult :=
  match r.build with
  | none => { r with exit := .panic }
  | some _ =>
    match w.stderrPipe with
    | some e => teardown w { r with logged := r.logged ++ [e] }
    | none =>
      match w.start with
      | some e => teardown w { r with logged := r.logged ++ [e] }
      | none =>
        let r1 : RunResult := { r with started := true, runner := true }
        match w.stdoutPipe with
        | some _ =>
          -- the error of StdoutPipe was overwritten: the scanner reads a nil stream
          { r1 with exit := .panic }
        | none =>
          let lines := w.early ++ w.late
          -- go scanner(stopOutput, execOutput, false)
          let outs := scanner isErrorText (linesOf .stdout lines) false
          -- go scanner(stopError, execError, true)
          let errs := scanner isErrorText (linesOf .stderr lines) true
          let records := interleave (lines.map Prod.fst) outs errs
          let r2 : RunResult := { r1 with
            stamps := r1.stamps ++ records.take w.early.length }
          let r3 :=
            match w.wake with
            | .stop => teardown w r2
            | .stopOutput => teardown w r2
            | .stopError => teardown w r2
          match r3.exit with
          | .returned => { r3 with stamps := r3.stamps ++ records.drop w.early.length }
          | _ => r3

/-- The two assignments to p.path at the start of the search for the binary in goRun. -/
def resolvePath (p : Project) (w : RunWorld) : String :=
  let path1 :=
    if w.stat (filepath.Join [p.base, p.path]) = none then filepath.Join [p.base, p.path]
    else p.path
  if w.stat (filepath.Join [p.base, path1 ++ ".exe"]) = none then
    filepath.Join [p.base, path1 ++ ".exe"]
  else path1

/-- Project.goRun. -/
def Project.goRun (p : Project) (w : RunWorld) : RunResult :=
  let compiled := w.compile p.ErrorOutputPattern
  let stamps := compileRecord compiled
  let args := p.Args.flatMap strings.Fields
  let path2 := resolvePath p w
  let bin := filepath.Join [w.gobin, filepath.Base path2]
  let r : RunResult :=
    { path := path2, stdLog := [], stamps := stamps, fatals := [], logged := [],
      build := none, started := false, runner := false, kills := 0, exit := .returned }
  match w.stat bin with
  | none => supervise w (isErrorText compiled) { r with build := some (exec.Command bin args) }
  | some _ =>
    match w.stat (bin ++ ".exe") with
    | none =>
      supervise w (isErrorText compiled)
        { r with build := some (exec.Command (bin ++ ".exe") args) }
    | some err =>
      let msg := ["Can't run a not compiled project", ":"]
      let r1 : RunResult := { r with
        stdLog := r.stdLog ++ [{ Text := "Can't run a not compiled project", Typ := "" }]
        fatals := r.fatals ++ [(some err, msg)] }
      match Settings.fatal (some err) msg with
      | some _ => { r1 with exit := .fatal }
      | none => supervise w (isErrorText compiled) r1

/-! ## A concrete world for the examples -/

/-- The characters with a special meaning in a regular expression. -/
def isMeta (c : Char) : Bool := "\\.+*?()|[]^$".data.contains c || c = Char.ofNat 123 || c = Char.ofNat 125

/-- An instance of regexp.Compile for the examples.  On a pattern without special
characters it behaves as the Go library does: the pattern compiles and matches exactly the
lines that contain it, so the empty pattern matches every line.  The more general theorems
quantify over every implementation of regexp.Compile instead. -/
def literalCompile (pattern : String) : Except String Regexp :=
  if pattern.data.any isMeta then .error "pattern outside the literal fragment"
  else .ok { MatchString := fun t => strings.Contains t pattern }

/-- A file system holding exactly the listed paths. -/
def statOf (files : List String) (path : String) : Err :=
  if path ∈ files then none else some ("stat " ++ path ++ ": no such file or directory")

/-- A world in which the pipes and the start succeed, over the given files, lines, wake-up
and result of the kill. -/
def worldOf (files : List String) (early late : List (Stream × String)) (wake : Wake)
    (kill : Err) : RunWorld :=
  { compile := literalCompile, stat := statOf files, gobin := "/go/bin",
    stdoutPipe := none, stderrPipe := none, start := none,
    early := early, late := late, wake := wake, kill := kill }

/-- Modelled from the spec: the helper `ext` is declared outside exec.go; the spec says it
gives the extension of a path, which is empty for a path without extension (root scope).
Here: the text after the last dot of the last path element. -/
def ext (path : String) : String :=
  let last := (path.data.reverse.takeWhile (fun c => c ≠ '/'))
  if last.contains '.' then ⟨(last.takeWhile (fun c => c ≠ '.')).reverse⟩ else ""

/-! ## Lemmas on the string helpers -/

section StringLemmas

open strings

theorem replaceGo_single (q : Char) (s : List Char) :
    replaceGo [q] [] 0 s = s.filter (fun c => c != q) := by
  induction s with
  | nil => simp [replaceGo]
  | cons c cs ih =>
    by_cases h : c = q
    · subst h
      simp [replaceGo, List.isPrefixOf, ih]
    · have h2 : ¬ q = c := fun e => h e.symm
      simp [replaceGo, List.isPrefixOf, ih, h, h2]

theorem splitGo_single_cons (d c : Char) (cur cs : List Char) :
    splitGo [d] 0 cur (c :: cs) =
      if c = d then cur.reverse :: splitGo [d] 0 [] cs else splitGo [d] 0 (c :: cur) cs := by
  by_cases h : c = d
  · subst h
    simp [splitGo, List.isPrefixOf]
  · have h2 : ¬ d = c := fun e => h e.symm
    simp [splitGo, List.isPrefixOf, h, h2]

theorem splitGo_ne_nil (sep : List Char) (n : Nat) (cur s : List Char) :
    splitGo sep n cur s ≠ [] := by
  induction s generalizing n cur with
  | nil => simp [splitGo]
  | cons c cs ih =>
    cases n with
    | zero =>
      unfold splitGo
      split
      · simp
      · exact ih _ _
    | succ k =>
      unfold splitGo
      exact ih _ _

theorem splitGo_head (d : Char) (s cur : List Char) :
    ∃ rest tail, splitGo [d] 0 cur s = (cur.reverse ++ rest) :: tail := by
  induction s generalizing cur with
  | nil => exact ⟨[], [], by simp [splitGo]⟩
  | cons c cs ih =>
    rw [splitGo_single_cons]
    by_cases h : c = d
    · exact ⟨[], splitGo [d] 0 [] cs, by simp [h]⟩
    · obtain ⟨rest, tail, e⟩ := ih (c :: cur)
      exact ⟨c :: rest, tail, by simp [h, e]⟩

theorem isSpace_blank : isSpace ' ' = true := by decide

theorem fieldsGo_eq_splitGo (s cur : List Char)
    (h : ∀ piece ∈ splitGo [' '] 0 cur s, piece ≠ [] ∧ ∀ c ∈ piece, isSpace c = false) :
    fieldsGo cur s = splitGo [' '] 0 cur s := by
  induction s generalizing cur with
  | nil =>
    have hc : cur ≠ [] := by
      have := (h cur.reverse (by simp [splitGo])).1
      simpa using this
    simp [fieldsGo, splitGo, hc]
  | cons c cs ih =>
    rw [splitGo_single_cons] at h ⊢
    by_cases hc : c = ' '
    · subst hc
      simp only [if_true] at h ⊢
      have hcur : cur ≠ [] := by
        have := (h cur.reverse (by simp)).1
        simpa using this
      have ih2 := ih [] (fun piece hp => h piece (by simp [hp]))
      simp [fieldsGo, isSpace_blank, hcur, ih2]
    · simp only [hc, if_false] at h ⊢
      obtain ⟨rest, tail, e⟩ := splitGo_head ' ' cs (c :: cur)
      have hsp : isSpace c = false :=
        (h ((c :: cur).reverse ++ rest) (by rw [e]; simp)).2 c (by simp)
      simp [fieldsGo, hsp, ih (c :: cur) h]

theorem fieldsGo_pieces (s cur : List Char) (hcur : ∀ c ∈ cur, isSpace c = false) :
    ∀ piece ∈ fieldsGo cur s, piece ≠ [] ∧ ∀ c ∈ piece, isSpace c = false := by
  induction s generalizing cur with
  | nil =>
    intro piece hp
    by_cases hc : cur = []
    · simp [fieldsGo, hc] at hp
    · simp only [fieldsGo, hc, if_false, List.mem_singleton] at hp
      subst hp
      exact ⟨by simpa using hc, fun c hcm => hcur c (by simpa using hcm)⟩
  | cons c cs ih =>
    intro piece hp
    by_cases hs : isSpace c = true
    · by_cases hc : cur = []
      · simp only [fieldsGo, hs, hc, if_true] at hp
        exact ih [] (by simp) piece hp
      · simp only [fieldsGo, hs, hc, if_true, if_false, List.mem_cons] at hp
        rcases hp with hp | hp
        · subst hp
          exact ⟨by simpa using hc, fun c hcm => hcur c (by simpa using hcm)⟩
        · exact ih [] (by simp) piece hp
    · have hs2 : isSpace c = false := by simpa using hs
      simp only [fieldsGo, hs2] at hp
      refine ih (c :: cur) ?_ piece (by simpa using hp)
      intro x hx
      rcases List.mem_cons.1 hx with hx | hx
      · subst hx; exact hs2
      · exact hcur x hx

theorem containsGo_iff (sub s : List Char) :
    containsGo sub s = true ↔ ∃ pre post, s = pre ++ sub ++ post := by
  induction s with
  | nil =>
    constructor
    · intro h
      have : sub = [] := by simpa [containsGo] using h
      exact ⟨[], [], by simp [this]⟩
    · rintro ⟨pre, post, e⟩
      have : sub = [] := by
        have h2 := congrArg List.length e
        simp at h2
        exact List.length_eq_zero.1 (by omega)
      simp [containsGo, this]
  | cons c cs ih =>
    simp only [containsGo, Bool.or_eq_true, ih]
    constructor
    · rintro (h | ⟨pre, post, e⟩)
      · obtain ⟨t, ht⟩ := List.isPrefixOf_iff_prefix.1 h
        exact ⟨[], t, by simp [ht]⟩
      · exact ⟨c :: pre, post, by simp [e]⟩
    · rintro ⟨pre, post, e⟩
      cases pre with
      | nil =>
        left
        exact List.isPrefixOf_iff_prefix.2 ⟨post, by simpa using e.symm⟩
      | cons a pre2 =>
        right
        simp only [List.cons_append, List.cons.injEq] at e
        exact ⟨pre2, post, e.2⟩

end StringLemmas

/-! ## Project.command -/

section CommandLemmas

open strings

theorem stripQuotes_data (s : String) :
    (stripQuotes s).data = (s.data.filter (fun c => c != quote)).filter (fun c => c != dquote) := by
  simp [stripQuotes, Replace, String.singleton, replaceGo_single]

theorem commandArgs_eq (cmd : Command) :
    commandArgs cmd = (splitGo [' '] 0 [] (stripQuotes cmd.Command).data).map String.mk := by
  simp [commandArgs, Split]

theorem fields_eq (s : String) : Fields s = (fieldsGo [] s.data).map String.mk := rfl

theorem command_runs (p : Project) (sel : Select) (stdout stderr : String) (cmd : Command) :
    ∃ r, p.command sel stdout stderr cmd = some r ∧ r.exec.Args = commandArgs cmd ∧
      r.exec.Dir = commandDir p cmd := by
  unfold Project.command
  have hne : commandArgs cmd ≠ [] := by
    rw [commandArgs_eq]
    simpa using splitGo_ne_nil [' '] 0 [] (stripQuotes cmd.Command).data
  cases hargs : commandArgs cmd with
  | nil => exact absurd hargs hne
  | cons name rest =>
    cases sel with
    | stop => exact ⟨_, rfl, rfl, rfl⟩
    | done err =>
      cases err with
      | none => exact ⟨_, rfl, rfl, rfl⟩
      | some e => exact ⟨_, rfl, rfl, rfl⟩

theorem mk_injective : Function.Injective String.mk := by
  intro a b h
  exact congrArg String.data h

theorem split_eq_fields_iff (t : String) :
    Split t " " = Fields t ↔
      ∀ a ∈ Split t " ", a ≠ "" ∧ ∀ c ∈ a.data, isSpace c = false := by
  have hs : Split t " " = (splitGo [' '] 0 [] t.data).map String.mk := by simp [Split]
  rw [hs, fields_eq]
  constructor
  · intro h a ha
    have h2 : splitGo [' '] 0 [] t.data = fieldsGo [] t.data :=
      List.map_injective_iff.2 mk_injective h
    obtain ⟨piece, hp, rfl⟩ := List.mem_map.1 ha
    rw [h2] at hp
    have := fieldsGo_pieces t.data [] (by simp) piece hp
    refine ⟨?_, this.2⟩
    intro e
    exact this.1 (congrArg String.data e)
  · intro h
    have h2 : fieldsGo [] t.data = splitGo [' '] 0 [] t.data := by
      apply fieldsGo_eq_splitGo
      intro piece hp
      have := h (String.mk piece) (List.mem_map.2 ⟨piece, hp, rfl⟩)
      refine ⟨?_, this.2⟩
      intro e
      exact this.1 (by rw [e])
    rw [h2]

end CommandLemmas

/-- C6 (amended): Project.command always spawns a process whose argument vector is the
list of pieces obtained by cutting, at every single space character, the command string
with every single and double quote deleted.  Pieces may be empty and a tab does not cut.
The vector equals the whitespace-separated fields of the stripped string exactly when none
of its arguments is empty or contains a whitespace character. -/
theorem command_argv_split (p : Project) (sel : Select) (stdout stderr : String)
    (cmd : Command) :
    ∃ r, p.command sel stdout stderr cmd = some r ∧
      (stripQuotes cmd.Command).data =
        (cmd.Command.data.filter (fun c => c != quote)).filter (fun c => c != dquote) ∧
      r.exec.Args = strings.Split (stripQuotes cmd.Command) " " ∧
      (r.exec.Args = strings.Fields (stripQuotes cmd.Command) ↔
        ∀ a ∈ r.exec.Args, a ≠ "" ∧ ∀ c ∈ a.data, strings.isSpace c = false) := by
  obtain ⟨r, hr, hargs, _⟩ := command_runs p sel stdout stderr cmd
  refine ⟨r, hr, stripQuotes_data _, hargs, ?_⟩
  rw [hargs]
  exact split_eq_fields_iff _

/-- C6 (witness): the command string `echo 'hi there'` yields the three arguments
`echo`, `hi` and `there`. -/
theorem command_argv_split_witness :
    ((Project.mk "app" "/p" "app" [] "").command Select.stop "" "" ⟨"echo 'hi there'", ""⟩).map
        (fun r => r.exec.Args) = some ["echo", "hi", "there"] := by
  obtain ⟨r, hr, _, hargs, _⟩ := command_argv_split (Project.mk "app" "/p" "app" [] "")
    Select.stop "" "" ⟨"echo 'hi there'", ""⟩
  rw [hr, Option.map_some', hargs]
  decide

/-- C6 (counterexample): for the command string `go  build` (two spaces) the spawned
process gets an empty argument, which the whitespace-separated fields do not contain; for
`go<TAB>build` it gets a single argument. -/
theorem command_argv_not_fields :
    ((Project.mk "app" "/p" "app" [] "").command Select.stop "" "" ⟨"go  build", ""⟩).map
        (fun r => r.exec.Args) = some ["go", "", "build"] ∧
      strings.Fields (stripQuotes "go  build") = ["go", "build"] ∧
      ((Project.mk "app" "/p" "app" [] "").command Select.stop "" "" ⟨"go\tbuild", ""⟩).map
        (fun r => r.exec.Args) = some ["go\tbuild"] ∧
      strings.Fields (stripQuotes "go\tbuild") = ["go", "build"] := by
  decide

/-- C7 (amended): the working directory chosen by Project.command is the base directory
when the override path is empty, the override path verbatim when the base directory occurs
anywhere inside it, and the base directory joined with the override path otherwise. -/
theorem command_dir (p : Project) (sel : Select) (stdout stderr : String) (cmd : Command) :
    ∃ r, p.command sel stdout stderr cmd = some r ∧
      (cmd.Path = "" → r.exec.Dir = p.base) ∧
      (cmd.Path ≠ "" → (∃ pre post : String, cmd.Path = pre ++ p.base ++ post) →
        r.exec.Dir = cmd.Path) ∧
      (cmd.Path ≠ "" → (¬ ∃ pre post : String, cmd.Path = pre ++ p.base ++ post) →
        r.exec.Dir = filepath.Join [p.base, cmd.Path]) := by
  obtain ⟨r, hr, _, hdir⟩ := command_runs p sel stdout stderr cmd
  have hc : strings.Contains cmd.Path p.base = true ↔
      ∃ pre post : String, cmd.Path = pre ++ p.base ++ post := by
    unfold strings.Contains
    rw [containsGo_iff]
    constructor
    · rintro ⟨pre, post, e⟩
      refine ⟨⟨pre⟩, ⟨post⟩, ?_⟩
      apply String.ext
      simpa using e
    · rintro ⟨pre, post, e⟩
      refine ⟨pre.data, post.data, ?_⟩
      rw [e]
      simp
  refine ⟨r, hr, ?_, ?_, ?_⟩
  · intro h
    simp [hdir, commandDir, h]
  · intro h hsub
    simp [hdir, commandDir, h, hc.2 hsub]
  · intro h hsub
    have : strings.Contains cmd.Path p.base = false := by
      cases hb : strings.Contains cmd.Path p.base with
      | false => rfl
      | true => exact absurd (hc.1 hb) hsub
    simp [hdir, commandDir, h, this]

/-- C7 (witness): base `/p` and override `/p/sub`, which contains the base directory: the
working directory is `/p/sub`. -/
theorem command_dir_witness :
    ((Project.mk "app" "/p" "app" [] "").command Select.stop "" "" ⟨"ls", "/p/sub"⟩).map
        (fun r => r.exec.Dir) = some "/p/sub" := by
  obtain ⟨r, hr, _, h, _⟩ := command_dir (Project.mk "app" "/p" "app" [] "")
    Select.stop "" "" ⟨"ls", "/p/sub"⟩
  rw [hr, Option.map_some', h (by decide) ⟨"", "/sub", by decide⟩]

/-- C7 (counterexample): base `/p` and override `x/p/y`: the base directory is not a prefix
of the override path, yet the working directory is the override path verbatim, not the base
directory joined with it. -/
theorem command_dir_not_joined :
    strings.StartsWith "x/p/y" "/p" = false ∧
      ((Project.mk "app" "/p" "app" [] "").command Select.stop "" "" ⟨"ls", "x/p/y"⟩).map
        (fun r => r.exec.Dir) = some "x/p/y" ∧
      filepath.Join ["/p", "x/p/y"] = "/p/x/p/y" ∧
      ("x/p/y" : String) ≠ "/p/x/p/y" := by
  decide

/-! ## Project.goCompile -/

theorem goCompile_stop_unstarted (p : Project) (gopath e0 out stderr : String)
    (args : List String) :
    (p.goCompile gopath none (some e0) Select.stop out stderr args).ret = none ∧
      (p.goCompile gopath none (some e0) Select.stop out stderr args).killed = false :=
  ⟨rfl, rfl⟩

/-- C2: when os.Setenv succeeds, goCompile builds the one command `go args...` in the base
directory.  With the build process started: if the stop case is taken it kills the process
and returns ("killed", nil); if the process ends with an error it returns the captured
standard error, whatever the captured standard output, and that non-nil error; if the
process ends without error it returns ("", nil).  When the process could not be started and
cmd.Wait() returns, the result is again the captured standard error and a non-nil error.
The killed, failed and succeeded pairs are pairwise different. -/
theorem goCompile_outcomes (p : Project) (gopath out stderr : String) (args : List String) :
    ((p.goCompile gopath none none Select.stop out stderr args).ret = some ("killed", none) ∧
      (p.goCompile gopath none none Select.stop out stderr args).killed = true ∧
      (p.goCompile gopath none none Select.stop out stderr args).cmd =
        some { Args := "go" :: args, Dir := p.base }) ∧
    (∀ e : String,
      (p.goCompile gopath none none (Select.done (some e)) out stderr args).ret =
        some (stderr, some e) ∧
      (p.goCompile gopath none none (Select.done (some e)) out stderr args).killed = false) ∧
    ((p.goCompile gopath none none (Select.done none) out stderr args).ret = some ("", none) ∧
      (p.goCompile gopath none none (Select.done none) out stderr args).killed = false) ∧
    (∀ (e0 : String) (err : Err),
      (p.goCompile gopath none (some e0) (Select.done err) out stderr args).ret =
        some (stderr, some "exec: not started")) ∧
    (∀ (start : Err) (e out2 stderr2 out3 stderr3 : String),
      (p.goCompile gopath none none Select.stop out stderr args).ret ≠
        (p.goCompile gopath none start (Select.done (some e)) out2 stderr2 args).ret ∧
      (p.goCompile gopath none none Select.stop out stderr args).ret ≠
        (p.goCompile gopath none none (Select.done none) out3 stderr3 args).ret ∧
      (p.goCompile gopath none start (Select.done (some e)) out2 stderr2 args).ret ≠
        (p.goCompile gopath none none (Select.done none) out3 stderr3 args).ret) := by
  refine ⟨⟨rfl, rfl, rfl⟩, fun e => ⟨rfl, rfl⟩, ⟨rfl, rfl⟩, fun e0 err => rfl, ?_⟩
  intro start e out2 stderr2 out3 stderr3
  cases start with
  | none =>
    refine ⟨?_, ?_, ?_⟩
    · simp [Project.goCompile, waitResult]
    · simp only [Project.goCompile, waitResult, ne_eq, Option.some.injEq, Prod.mk.injEq,
        and_true]
      decide
    · simp [Project.goCompile, waitResult]
  | some e1 =>
    refine ⟨?_, ?_, ?_⟩
    · simp [Project.goCompile, waitResult]
    · simp only [Project.goCompile, waitResult, ne_eq, Option.some.injEq, Prod.mk.injEq,
        and_true]
      decide
    · simp [Project.goCompile, waitResult]

/-! ## Project.goTool -/

section ToolLemmas

theorem hasSuffix_empty (s : String) : strings.HasSuffix s "" = true := by
  simp [strings.HasSuffix, List.isSuffixOf]

end ToolLemmas

/-- C5: goTool calls wg.Done() exactly once in every case.  It sends exactly one value on
the result channel when the tool is enabled, the path is applicable and the command ends
with an error before the stop case is taken, and the error field of that value is the
captured standard error followed by the captured standard output; in every other case it
sends nothing. -/
theorem goTool_result (ext : String → String) (p : Project) (sel : Select)
    (out stderr path : String) (t : tool) :
    (p.goTool ext sel out stderr path t).wgDone = 1 ∧
    ((t.status = true ∧ applicable ext p path ∧ ∃ e, sel = Select.done (some e)) →
      ∃ v, (p.goTool ext sel out stderr path t).result = [v] ∧ v.err = stderr ++ out) ∧
    (¬ (t.status = true ∧ applicable ext p path ∧ ∃ e, sel = Select.done (some e)) →
      (p.goTool ext sel out stderr path t).result = []) := by
  refine ⟨?_, ?_, ?_⟩
  · simp only [Project.goTool, goToolBody]
    split_ifs <;> first | rfl | (split <;> rfl)
  · rintro ⟨hs, happ, e, rfl⟩
    unfold applicable at happ
    simp only [Project.goTool, goToolBody, hs, hasSuffix_empty, Bool.or_true, if_true, happ]
    exact ⟨_, rfl, rfl⟩
  · intro h
    simp only [Project.goTool, goToolBody, hasSuffix_empty, Bool.or_true, if_true]
    by_cases hs : t.status = true
    · by_cases happ : applicable ext p path
      · have happ2 := happ
        unfold applicable at happ2
        simp only [hs, if_true, happ2]
        cases sel with
        | stop => rfl
        | done err =>
          cases err with
          | none => rfl
          | some e => exact absurd ⟨hs, happ, e, rfl⟩ h
      · have happ2 := happ
        unfold applicable at happ2
        simp only [hs, if_true, happ2, if_false]
    · simp [hs]

/-- C4 (amended): for every enabled tool with dir = true and every target path ending in
`.go`, when the command is run (the extension of the project base is empty or `go`),
goTool runs the command of the tool with the target path appended to the option list of
the tool. -/
theorem goTool_go_file_options (ext : String → String) (p : Project) (sel : Select)
    (out stderr path : String) (t : tool) (hs : t.status = true) (hd : t.dir = true)
    (hgo : strings.HasSuffix path ".go" = true) (hext : ext p.base = "" ∨ ext p.base = "go") :
    ∃ c, (p.goTool ext sel out stderr path t).cmd = some c ∧
      c.Args = t.cmd :: (t.options ++ [path]) := by
  simp only [Project.goTool, goToolBody, hs, hgo, Bool.true_or, if_true, hext, hd]
  cases sel with
  | stop => exact ⟨_, rfl, rfl⟩
  | done err =>
    cases err with
    | none => exact ⟨_, rfl, rfl⟩
    | some e => exact ⟨_, rfl, rfl⟩

/-- C4 (witness): the tool `go vet` with dir = true on `/p/pkg/x.go` in the project `/p`. -/
theorem goTool_go_file_options_witness :
    ∃ c, ((Project.mk "app" "/p" "app" [] "").goTool ext Select.stop "" ""
        "/p/pkg/x.go" ⟨"go", ["vet"], true, true, ""⟩).cmd = some c ∧
      c.Args = "go" :: (["vet"] ++ ["/p/pkg/x.go"]) :=
  goTool_go_file_options ext (Project.mk "app" "/p" "app" [] "") Select.stop "" ""
    "/p/pkg/x.go" ⟨"go", ["vet"], true, true, ""⟩ rfl rfl (by decide) (by decide)

/-- C4 (counterexample): the tool `go vet` with dir = true on `/p/pkg/x.go` in the project
`/p`: the command runs with the file path appended to the options and its working
directory is not `/p/pkg`. -/
theorem goTool_go_file_not_unchanged :
    ((Project.mk "app" "/p" "app" [] "").goTool ext (Select.done none) "" ""
        "/p/pkg/x.go" ⟨"go", ["vet"], true, true, ""⟩).cmd =
      some { Args := ["go", "vet", "/p/pkg/x.go"], Dir := "/" } ∧
    filepath.Dir "/p/pkg/x.go" = "/p/pkg" := by
  decide

/-! ## Project.goRun -/

section RunLemmas

theorem teardown_build (w : RunWorld) (r : RunResult) :
    (teardown w r).build = r.build ∧ (teardown w r).path = r.path ∧
      (teardown w r).started = r.started ∧ (teardown w r).runner = r.runner := by
  unfold teardown
  split_ifs
  · split
    · split <;> simp
    · simp
  · simp

theorem supervise_build (w : RunWorld) (f : String → Bool) (r : RunResult) :
    (supervise w f r).build = r.build ∧ (supervise w f r).path = r.path := by
  unfold supervise
  split
  · simp
  · split
    · simp [teardown_build]
    · split
      · simp [teardown_build]
      · split
        · simp
        · simp only []
          split <;> cases w.wake <;> simp [teardown_build]

theorem interleave_scanners (f : String → Bool) (lines : List (Stream × String)) :
    interleave (lines.map Prod.fst) (scanner f (linesOf Stream.stdout lines) false)
        (scanner f (linesOf Stream.stderr lines) true) =
      lines.map (fun l => scanLine f (decide (l.1 = Stream.stderr)) l.2) := by
  induction lines with
  | nil => simp [interleave, scanner, linesOf]
  | cons l rest ih =>
    obtain ⟨stream, text⟩ := l
    cases stream with
    | stdout =>
      simp only [linesOf, scanner, List.map_map] at ih
      simp [interleave, scanner, linesOf, ih]
    | stderr =>
      simp only [linesOf, scanner, List.map_map] at ih
      simp [interleave, scanner, linesOf, ih]

theorem supervise_streaming (w : RunWorld) (f : String → Bool) (r : RunResult) (c : Cmd)
    (hc : r.build = some c) (hf : r.fatals = [])
    (hout : w.stdoutPipe = none) (herr : w.stderrPipe = none) (hstart : w.start = none) :
    (w.kill = none →
      (supervise w f r).stamps = r.stamps ++
          w.early.map (fun l => scanLine f (decide (l.1 = Stream.stderr)) l.2) ++
          ended :: w.late.map (fun l => scanLine f (decide (l.1 = Stream.stderr)) l.2) ∧
      (supervise w f r).exit = Exit.returned) ∧
    (∀ e, w.kill = some e →
      (supervise w f r).stamps = r.stamps ++
          w.early.map (fun l => scanLine f (decide (l.1 = Stream.stderr)) l.2) ∧
      (supervise w f r).fatals = [(some e, ["Failed to stop", ":"])] ∧
      (supervise w f r).exit = Exit.fatal) := by
  have htake : (List.map (fun l : Stream × String =>
        scanLine f (decide (l.1 = Stream.stderr)) l.2) (w.early ++ w.late)).take w.early.length
      = w.early.map (fun l => scanLine f (decide (l.1 = Stream.stderr)) l.2) := by
    rw [List.map_append]
    exact List.take_left' (by simp)
  have hdrop : (List.map (fun l : Stream × String =>
        scanLine f (decide (l.1 = Stream.stderr)) l.2) (w.early ++ w.late)).drop w.early.length
      = w.late.map (fun l => scanLine f (decide (l.1 = Stream.stderr)) l.2) := by
    rw [List.map_append]
    exact List.drop_left' (by simp)
  constructor
  · intro hk
    simp only [supervise, hc, herr, hstart, hout, interleave_scanners, htake, hdrop]
    cases w.wake <;> simp [teardown, hk]
  · intro e hk
    have hfat : Settings.fatal (some e) ["Failed to stop", ":"] =
        some (["Failed to stop", ":"] ++ [e]) := by
      simp [Settings.fatal]
    simp only [supervise, hc, herr, hstart, hout, interleave_scanners, htake, hdrop]
    cases w.wake <;> simp [teardown, hk, hfat, hf]

theorem fatal_some (e : String) (msg : List String) : Settings.fatal (some e) msg ≠ none := by
  unfold Settings.fatal
  split_ifs <;> simp_all

theorem goRun_path (p : Project) (w : RunWorld) : (p.goRun w).path = resolvePath p w := by
  unfold Project.goRun
  simp only []
  split
  · rw [(supervise_build _ _ _).2]
  · split
    · rw [(supervise_build _ _ _).2]
    · split
      · rfl
      · rw [(supervise_build _ _ _).2]

theorem goRun_build (p : Project) (w : RunWorld) :
    (w.stat (filepath.Join [w.gobin, filepath.Base (resolvePath p w)]) = none →
      (p.goRun w).build = some (exec.Command
        (filepath.Join [w.gobin, filepath.Base (resolvePath p w)])
        (p.Args.flatMap strings.Fields))) ∧
    (w.stat (filepath.Join [w.gobin, filepath.Base (resolvePath p w)]) ≠ none →
      w.stat (filepath.Join [w.gobin, filepath.Base (resolvePath p w)] ++ ".exe") = none →
      (p.goRun w).build = some (exec.Command
        (filepath.Join [w.gobin, filepath.Base (resolvePath p w)] ++ ".exe")
        (p.Args.flatMap strings.Fields))) ∧
    (w.stat (filepath.Join [w.gobin, filepath.Base (resolvePath p w)]) ≠ none →
      w.stat (filepath.Join [w.gobin, filepath.Base (resolvePath p w)] ++ ".exe") ≠ none →
      (∃ e, w.stat (filepath.Join [w.gobin, filepath.Base (resolvePath p w)] ++ ".exe") =
          some e ∧
        (p.goRun w).fatals = [(some e, ["Can't run a not compiled project", ":"])]) ∧
      (p.goRun w).build = none ∧ (p.goRun w).started = false ∧
      (p.goRun w).runner = false ∧ (p.goRun w).kills = 0 ∧ (p.goRun w).exit = Exit.fatal) := by
  refine ⟨?_, ?_, ?_⟩
  · intro h
    unfold Project.goRun
    simp only [h]
    rw [(supervise_build _ _ _).1]
  · intro h1 h2
    unfold Project.goRun
    simp only [h2]
    split
    · rename_i h3
      exact absurd h3 h1
    · rw [(supervise_build _ _ _).1]
  · intro h1 h2
    unfold Project.goRun
    simp only []
    split
    · rename_i h3
      exact absurd h3 h1
    · split
      · rename_i h3
        exact absurd h3 h2
      · rename_i e he
        split
        · exact ⟨⟨e, he, by simp⟩, rfl, rfl, rfl, rfl, rfl⟩
        · rename_i h4
          exact absurd h4 (fatal_some _ _)

theorem scanLine_ne_ended (f : String → Bool) (b : Bool) (t : String) :
    scanLine f b t ≠ ended := by
  unfold scanLine ended
  split_ifs <;> simp

theorem contains_empty (t : String) : strings.Contains t "" = true := by
  unfold strings.Contains
  rw [containsGo_iff]
  exact ⟨[], t.data, by simp⟩

theorem resolvePath_unbuilt (p : Project) (w : RunWorld)
    (h1 : w.stat (filepath.Join [p.base, p.path]) ≠ none)
    (h2 : w.stat (filepath.Join [p.base, p.path ++ ".exe"]) ≠ none) :
    resolvePath p w = p.path := by
  simp [resolvePath, h1, h2]

theorem resolvePath_exe (p : Project) (w : RunWorld)
    (h1 : w.stat (filepath.Join [p.base, p.path]) ≠ none)
    (h2 : w.stat (filepath.Join [p.base, p.path ++ ".exe"]) = none) :
    resolvePath p w = filepath.Join [p.base, p.path ++ ".exe"] := by
  simp [resolvePath, h1, h2]

theorem scanLine_text (f : String → Bool) (b : Bool) (t : String) :
    (scanLine f b t).out = { Text := t, Typ := "Go Run" } := by
  unfold scanLine
  split_ifs <;> rfl

theorem scanLine_category (c : Except String Regexp) (stream : Stream) (t : String) :
    ((scanLine (isErrorText c) (decide (stream = Stream.stderr)) t).category = "error" ↔
      (stream = Stream.stderr ∧ ¬ ∃ re, c = Except.ok re ∧ re.MatchString t = true)) ∧
    ((scanLine (isErrorText c) (decide (stream = Stream.stderr)) t).category ≠ "error" →
      (scanLine (isErrorText c) (decide (stream = Stream.stderr)) t).category = "out") := by
  cases stream with
  | stdout => simp [scanLine]
  | stderr =>
    cases c with
    | error e => simp [scanLine, isErrorText]
    | ok re =>
      cases hm : re.MatchString t with
      | false => simp [scanLine, isErrorText, hm]
      | true => simp [scanLine, isErrorText, hm]

theorem compileRecord_ne_ended (c : Except String Regexp) : ∀ s ∈ compileRecord c, s ≠ ended := by
  intro s hs
  unfold compileRecord at hs
  split at hs
  · simp only [List.mem_singleton] at hs
    subst hs
    simp [ended]
  · simp at hs

theorem goRun_streaming (p : Project) (w : RunWorld) (hbin : (p.goRun w).build ≠ none)
    (hout : w.stdoutPipe = none) (herr : w.stderrPipe = none) (hstart : w.start = none) :
    (w.kill = none →
      (p.goRun w).stamps = compileRecord (w.compile p.ErrorOutputPattern) ++
          w.early.map (fun l => scanLine (isErrorText (w.compile p.ErrorOutputPattern))
            (decide (l.1 = Stream.stderr)) l.2) ++
          ended :: w.late.map (fun l => scanLine (isErrorText (w.compile p.ErrorOutputPattern))
            (decide (l.1 = Stream.stderr)) l.2) ∧
      (p.goRun w).exit = Exit.returned) ∧
    (∀ e, w.kill = some e →
      (p.goRun w).stamps = compileRecord (w.compile p.ErrorOutputPattern) ++
          w.early.map (fun l => scanLine (isErrorText (w.compile p.ErrorOutputPattern))
            (decide (l.1 = Stream.stderr)) l.2) ∧
      (p.goRun w).fatals = [(some e, ["Failed to stop", ":"])] ∧
      (p.goRun w).exit = Exit.fatal) := by
  by_cases h1 : w.stat (filepath.Join [w.gobin, filepath.Base (resolvePath p w)]) = none
  · unfold Project.goRun
    simp only [h1]
    exact supervise_streaming w _ _ _ rfl rfl hout herr hstart
  · by_cases h2 :
      w.stat (filepath.Join [w.gobin, filepath.Base (resolvePath p w)] ++ ".exe") = none
    · unfold Project.goRun
      simp only [h2]
      split
      · rename_i h3
        exact absurd h3 h1
      · exact supervise_streaming w _ _ _ rfl rfl hout herr hstart
    · exact absurd ((goRun_build p w).2.2 h1 h2).2.1 hbin

end RunLemmas

/-- The closure scanner alone: one record per line, in order, with category "error"
exactly for a line of the standard-error stream that the compiled pattern does not match. -/
theorem scanner_category (compile : String → Except String Regexp) (pattern : String)
    (output : List String) (isError : Bool) :
    (scanner (isErrorText (compile pattern)) output isError).map (fun s => s.out.Text) = output ∧
    ∀ s ∈ scanner (isErrorText (compile pattern)) output isError,
      (s.category = "error" ↔
        (isError = true ∧
          ¬ ∃ re, compile pattern = Except.ok re ∧ re.MatchString s.out.Text = true)) ∧
      (s.category ≠ "error" → s.category = "out") := by
  constructor
  · unfold scanner
    rw [List.map_map]
    have : ((fun s : Stamp => s.out.Text) ∘ scanLine (isErrorText (compile pattern)) isError)
        = id := by
      funext t
      simp only [Function.comp, scanLine, id]
      split_ifs <;> rfl
    rw [this, List.map_id]
  · intro s hs
    obtain ⟨text, _, rfl⟩ := List.mem_map.1 hs
    cases isError with
    | false => simp [scanLine]
    | true =>
      cases hc : compile pattern with
      | error e => simp [scanLine, isErrorText]
      | ok re =>
        cases hm : re.MatchString text with
        | false => simp [scanLine, isErrorText, hm]
        | true => simp [scanLine, isErrorText, hm]

/-- C1: in every run of goRun in which a binary is located, both pipes are created and the
subprocess starts, whatever regexp.Compile is: the records stamped are the record of a
failed compile, if any, then one record for each line read from the process, in order, with
the record "Ended" after the early ones when the kill succeeds.  The record of a line keeps
its text, and has category "error" exactly when the line was read from the standard-error
stream and it is not the case that the pattern compiled and matches the line; otherwise its
category is "out".  So no line of the standard-output stream is an error, and with a
pattern that does not compile every line of the standard-error stream is one. -/
theorem goRun_line_category (p : Project) (w : RunWorld) (hbin : (p.goRun w).build ≠ none)
    (hout : w.stdoutPipe = none) (herr : w.stderrPipe = none) (hstart : w.start = none) :
    ∃ earlyRecords lateRecords : List Stamp,
      (p.goRun w).stamps = compileRecord (w.compile p.ErrorOutputPattern) ++ earlyRecords ++
          (if w.kill = none then ended :: lateRecords else []) ∧
      List.Forall₂ (fun (l : Stream × String) (s : Stamp) =>
          s.out = { Text := l.2, Typ := "Go Run" } ∧
          (s.category = "error" ↔
            (l.1 = Stream.stderr ∧
              ¬ ∃ re, w.compile p.ErrorOutputPattern = Except.ok re ∧
                re.MatchString l.2 = true)) ∧
          (s.category ≠ "error" → s.category = "out")) w.early earlyRecords ∧
      List.Forall₂ (fun (l : Stream × String) (s : Stamp) =>
          s.out = { Text := l.2, Typ := "Go Run" } ∧
          (s.category = "error" ↔
            (l.1 = Stream.stderr ∧
              ¬ ∃ re, w.compile p.ErrorOutputPattern = Except.ok re ∧
                re.MatchString l.2 = true)) ∧
          (s.category ≠ "error" → s.category = "out")) w.late lateRecords := by
  have hs := goRun_streaming p w hbin hout herr hstart
  have hrel : ∀ lines : List (Stream × String),
      List.Forall₂ (fun (l : Stream × String) (s : Stamp) =>
          s.out = { Text := l.2, Typ := "Go Run" } ∧
          (s.category = "error" ↔
            (l.1 = Stream.stderr ∧
              ¬ ∃ re, w.compile p.ErrorOutputPattern = Except.ok re ∧
                re.MatchString l.2 = true)) ∧
          (s.category ≠ "error" → s.category = "out")) lines
        (lines.map (fun l => scanLine (isErrorText (w.compile p.ErrorOutputPattern))
            (decide (l.1 = Stream.stderr)) l.2)) := by
    intro lines
    induction lines with
    | nil => exact List.Forall₂.nil
    | cons l rest ih =>
      exact List.Forall₂.cons
        ⟨scanLine_text _ _ _, (scanLine_category _ l.1 l.2).1, (scanLine_category _ l.1 l.2).2⟩ ih
  refine ⟨_, _, ?_, hrel w.early, hrel w.late⟩
  cases hk : w.kill with
  | none => simpa using (hs.1 hk).1
  | some e => simpa using (hs.2 e hk).1

/-- C1 (witness): the pattern `oo`, the lines `boom` and `bam` of the standard-error stream
and the line `foo` of the standard-output stream. -/
theorem goRun_line_category_witness :
    ((Project.mk "app" "/p" "app" [] "oo").goRun
        (worldOf ["/go/bin/app"]
          [(Stream.stderr, "boom"), (Stream.stdout, "foo"), (Stream.stderr, "bam")] []
          Wake.stop none)).stamps =
      [{ category := "out", out := { Text := "boom", Typ := "Go Run" } },
       { category := "out", out := { Text := "foo", Typ := "Go Run" } },
       { category := "error", out := { Text := "bam", Typ := "Go Run" } },
       ended] ∧
    ∃ earlyRecords lateRecords : List Stamp,
      ((Project.mk "app" "/p" "app" [] "oo").goRun
        (worldOf ["/go/bin/app"]
          [(Stream.stderr, "boom"), (Stream.stdout, "foo"), (Stream.stderr, "bam")] []
          Wake.stop none)).stamps =
        compileRecord (literalCompile "oo") ++ earlyRecords ++ [ended] ++ lateRecords ∧
      earlyRecords.length = 3 ∧ lateRecords.length = 0 := by
  refine ⟨by decide, ?_⟩
  obtain ⟨er, lr, hst, he, hl⟩ := goRun_line_category (Project.mk "app" "/p" "app" [] "oo")
    (worldOf ["/go/bin/app"]
      [(Stream.stderr, "boom"), (Stream.stdout, "foo"), (Stream.stderr, "bam")] []
      Wake.stop none) (by decide) rfl rfl rfl
  refine ⟨er, lr, ?_, ?_, ?_⟩
  · rw [hst]
    simp [worldOf]
  · exact he.length_eq.symm
  · exact hl.length_eq.symm

/-- C8 (amended): for every project whose error-detection pattern is the empty string,
which compiles to an expression matching every line, every line read from the
standard-error stream is stamped with category "out": no line is classified as error. -/
theorem empty_pattern_out (p : Project) (compile : String → Except String Regexp)
    (re : Regexp) (output : List String) (hp : p.ErrorOutputPattern = "")
    (hc : compile "" = Except.ok re) (hm : ∀ t, re.MatchString t = true) :
    (scanner (isErrorText (compile p.ErrorOutputPattern)) output true).map
        (fun s => s.category) = output.map (fun _ => "out") := by
  unfold scanner
  rw [List.map_map]
  apply List.map_congr_left
  intro text _
  simp [scanLine, isErrorText, hp, hc, hm]

/-- C8 (witness): the empty pattern and the standard-error lines `boom` and `bam`. -/
theorem empty_pattern_out_witness :
    (scanner (isErrorText (literalCompile (Project.mk "app" "/p" "app" [] "").ErrorOutputPattern))
        ["boom", "bam"] true).map (fun s => s.category) = ["boom", "bam"].map (fun _ => "out") :=
  empty_pattern_out (Project.mk "app" "/p" "app" [] "") literalCompile
    { MatchString := fun t => strings.Contains t "" } ["boom", "bam"] rfl rfl contains_empty

/-- C8 (counterexample): a project with the empty pattern whose process writes `boom` on
its standard-error stream: goRun stamps the line with category "out", not "error". -/
theorem empty_pattern_not_error :
    ((Project.mk "app" "/p" "app" [] "").goRun
        (worldOf ["/go/bin/app"] [(Stream.stderr, "boom")] [] Wake.stopError none)).stamps =
      [{ category := "out", out := { Text := "boom", Typ := "Go Run" } }, ended] := by
  decide

/-- C3 (amended): when a file exists at the base directory joined with the configured
path and the following probe for an `.exe` file finds nothing, goRun sets p.path to that
base-joined path.  In every case the subprocess it builds is not that file but the entry
of the GOBIN directory for the base name of p.path: that entry if it exists, else that
entry plus `.exe` if it exists; if neither exists goRun calls fatal once, with a non-nil
error and the message "Can't run a not compiled project", and starts nothing. -/
theorem goRun_binary_from_gobin (p : Project) (w : RunWorld)
    (h : w.stat (filepath.Join [p.base, p.path]) = none) :
    (w.stat (filepath.Join [p.base, filepath.Join [p.base, p.path] ++ ".exe"]) ≠ none →
      (p.goRun w).path = filepath.Join [p.base, p.path]) ∧
    (w.stat (filepath.Join [w.gobin, filepath.Base (p.goRun w).path]) = none →
      (p.goRun w).build = some (exec.Command
        (filepath.Join [w.gobin, filepath.Base (p.goRun w).path])
        (p.Args.flatMap strings.Fields))) ∧
    (w.stat (filepath.Join [w.gobin, filepath.Base (p.goRun w).path]) ≠ none →
      w.stat (filepath.Join [w.gobin, filepath.Base (p.goRun w).path] ++ ".exe") = none →
      (p.goRun w).build = some (exec.Command
        (filepath.Join [w.gobin, filepath.Base (p.goRun w).path] ++ ".exe")
        (p.Args.flatMap strings.Fields))) ∧
    (w.stat (filepath.Join [w.gobin, filepath.Base (p.goRun w).path]) ≠ none →
      w.stat (filepath.Join [w.gobin, filepath.Base (p.goRun w).path] ++ ".exe") ≠ none →
      (∃ e : String,
        (p.goRun w).fatals = [(some e, ["Can't run a not compiled project", ":"])] ∧
        Settings.fatal (some e) ["Can't run a not compiled project", ":"] ≠ none) ∧
      (p.goRun w).build = none ∧ (p.goRun w).started = false ∧
      (p.goRun w).runner = false ∧ (p.goRun w).exit = Exit.fatal) := by
  have hb := goRun_build p w
  rw [goRun_path]
  refine ⟨?_, hb.1, hb.2.1, ?_⟩
  · intro h2
    simp [resolvePath, h, h2]
  · intro h1 h2
    obtain ⟨⟨e, _, he⟩, h3, h4, h5, _, h6⟩ := hb.2.2 h1 h2
    exact ⟨⟨e, he, fatal_some _ _⟩, h3, h4, h5, h6⟩

/-- C3 (witness): base `/p`, path `app`, files `/p/app` and `/go/bin/app`. -/
theorem goRun_binary_from_gobin_witness :
    ((Project.mk "app" "/p" "app" [] "").goRun
        (worldOf ["/p/app", "/go/bin/app"] [] [] Wake.stop none)).path = "/p/app" ∧
    ((Project.mk "app" "/p" "app" [] "").goRun
        (worldOf ["/p/app", "/go/bin/app"] [] [] Wake.stop none)).build =
      some (exec.Command "/go/bin/app" []) := by
  have h := goRun_binary_from_gobin (Project.mk "app" "/p" "app" [] "")
    (worldOf ["/p/app", "/go/bin/app"] [] [] Wake.stop none) (by decide)
  exact ⟨h.1 (by decide), by decide⟩

/-- C3 (counterexample): base `/p`, path `app`, a file at `/p/app`.  With a binary
`/go/bin/app` in the GOBIN directory the subprocess is `/go/bin/app`, not `/p/app`; without
one goRun takes the fatal path and starts no subprocess. -/
theorem goRun_not_base_joined :
    ((Project.mk "app" "/p" "app" [] "").goRun
        (worldOf ["/p/app", "/go/bin/app"] [] [] Wake.stop none)).build =
      some { Args := ["/go/bin/app"], Dir := "" } ∧
    ((Project.mk "app" "/p" "app" [] "").goRun
        (worldOf ["/p/app"] [] [] Wake.stop none)).build = none ∧
    ((Project.mk "app" "/p" "app" [] "").goRun
        (worldOf ["/p/app"] [] [] Wake.stop none)).started = false ∧
    ((Project.mk "app" "/p" "app" [] "").goRun
        (worldOf ["/p/app"] [] [] Wake.stop none)).exit = Exit.fatal ∧
    ((Project.mk "app" "/p" "app" [] "").goRun
        (worldOf ["/p/app"] [] [] Wake.stop none)).fatals =
      [(some "stat /go/bin/app.exe: no such file or directory",
        ["Can't run a not compiled project", ":"])] := by
  decide

/-- C9: when no file exists at the base-joined path, at the base-joined path plus `.exe`,
or in the GOBIN directory under the base name of the path with or without `.exe`, goRun
calls fatal exactly once, with a non-nil error and the message "Can't run a not compiled
project", that call ends the program, no subprocess is built or started and the readiness
channel is not closed. -/
theorem goRun_not_compiled (p : Project) (w : RunWorld)
    (h1 : w.stat (filepath.Join [p.base, p.path]) ≠ none)
    (h2 : w.stat (filepath.Join [p.base, p.path ++ ".exe"]) ≠ none)
    (h3 : w.stat (filepath.Join [w.gobin, filepath.Base p.path]) ≠ none)
    (h4 : w.stat (filepath.Join [w.gobin, filepath.Base p.path] ++ ".exe") ≠ none) :
    (∃ e : String,
      (p.goRun w).fatals = [(some e, ["Can't run a not compiled project", ":"])] ∧
      Settings.fatal (some e) ["Can't run a not compiled project", ":"] ≠ none) ∧
    (p.goRun w).build = none ∧ (p.goRun w).started = false ∧ (p.goRun w).kills = 0 ∧
    (p.goRun w).runner = false ∧ (p.goRun w).exit = Exit.fatal := by
  have hb := (goRun_build p w).2.2
  rw [resolvePath_unbuilt p w h1 h2] at hb
  obtain ⟨⟨e, _, he⟩, hbuild, hstarted, hrunner, hkills, hexit⟩ := hb h3 h4
  exact ⟨⟨e, he, fatal_some _ _⟩, hbuild, hstarted, hkills, hrunner, hexit⟩

/-- C9 (witness): base `/p`, path `app`, an empty file system. -/
theorem goRun_not_compiled_witness :
    (∃ e : String,
      ((Project.mk "app" "/p" "app" [] "").goRun (worldOf [] [] [] Wake.stop none)).fatals =
        [(some e, ["Can't run a not compiled project", ":"])] ∧
      Settings.fatal (some e) ["Can't run a not compiled project", ":"] ≠ none) ∧
    ((Project.mk "app" "/p" "app" [] "").goRun (worldOf [] [] [] Wake.stop none)).build = none ∧
    ((Project.mk "app" "/p" "app" [] "").goRun (worldOf [] [] [] Wake.stop none)).started = false ∧
    ((Project.mk "app" "/p" "app" [] "").goRun (worldOf [] [] [] Wake.stop none)).kills = 0 ∧
    ((Project.mk "app" "/p" "app" [] "").goRun (worldOf [] [] [] Wake.stop none)).runner = false ∧
    ((Project.mk "app" "/p" "app" [] "").goRun (worldOf [] [] [] Wake.stop none)).exit =
      Exit.fatal :=
  goRun_not_compiled (Project.mk "app" "/p" "app" [] "") (worldOf [] [] [] Wake.stop none)
    (by decide) (by decide) (by decide) (by decide)

/-- C10 (amended): when a binary has been located, both pipes are created and the
subprocess starts, then on each of the three ways out of the wait loop (stop signal, end of
the standard-output stream, end of the standard-error stream): if the kill succeeds,
teardown stamps the record "Ended" with category "log" exactly once and goRun returns;
that record comes after every record stamped before teardown and is followed only by the
records of the lines that the scanner goroutines, which are not joined, stamp afterwards,
so it is the last record when there are no such lines.  If the kill fails, goRun calls fatal
"Failed to stop", which ends the program, and no "Ended" record is stamped. -/
theorem goRun_ended (p : Project) (w : RunWorld) (hbin : (p.goRun w).build ≠ none)
    (hout : w.stdoutPipe = none) (herr : w.stderrPipe = none) (hstart : w.start = none) :
    (w.kill = none →
      (∃ pre post, (p.goRun w).stamps = pre ++ ended :: post ∧ ended ∉ pre ∧ ended ∉ post ∧
        post.map (fun s => s.out.Text) = w.late.map Prod.snd) ∧
      (w.late = [] ↔ (p.goRun w).stamps.getLast? = some ended) ∧
      ended.category = "log" ∧ ended.out.Text = "Ended" ∧
      (p.goRun w).exit = Exit.returned) ∧
    (∀ e, w.kill = some e →
      ended ∉ (p.goRun w).stamps ∧
      (p.goRun w).fatals = [(some e, ["Failed to stop", ":"])] ∧
      (p.goRun w).exit = Exit.fatal) := by
  have hs := goRun_streaming p w hbin hout herr hstart
  have hlines : ∀ lines : List (Stream × String),
      ended ∉ lines.map (fun l => scanLine (isErrorText (w.compile p.ErrorOutputPattern))
        (decide (l.1 = Stream.stderr)) l.2) := by
    intro lines hmem
    obtain ⟨l, _, hl⟩ := List.mem_map.1 hmem
    exact scanLine_ne_ended _ _ _ hl
  have hpre : ended ∉ compileRecord (w.compile p.ErrorOutputPattern) ++
      w.early.map (fun l => scanLine (isErrorText (w.compile p.ErrorOutputPattern))
        (decide (l.1 = Stream.stderr)) l.2) := by
    intro hmem
    rcases List.mem_append.1 hmem with hm | hm
    · exact compileRecord_ne_ended _ _ hm rfl
    · exact hlines _ hm
  constructor
  · intro hk
    obtain ⟨hst, hex⟩ := hs.1 hk
    refine ⟨⟨_, _, hst, hpre, hlines _, ?_⟩, ?_, rfl, rfl, hex⟩
    · rw [List.map_map]
      apply List.map_congr_left
      intro l _
      simp [scanLine_text]
    · constructor
      · intro hl
        rw [hst, hl]
        simp
      · intro hlast
        by_contra hne
        have hne2 : w.late.map (fun l => scanLine (isErrorText (w.compile p.ErrorOutputPattern))
            (decide (l.1 = Stream.stderr)) l.2) ≠ [] := by
          simpa using hne
        rw [hst, List.append_cons, List.getLast?_append_of_ne_nil _ hne2] at hlast
        exact hlines w.late (List.mem_of_getLast?_eq_some hlast)
  · intro e hk
    obtain ⟨hst, hf, hex⟩ := hs.2 e hk
    exact ⟨by rw [hst]; exact hpre, hf, hex⟩

/-- C10 (witness): a located binary, two lines stamped before teardown, the stop signal
and a kill that succeeds. -/
theorem goRun_ended_witness :
    ((Project.mk "app" "/p" "app" [] "x").goRun
        (worldOf ["/go/bin/app"] [(Stream.stderr, "boom"), (Stream.stdout, "hi")] []
          Wake.stop none)).stamps.getLast? = some ended ∧
      ((Project.mk "app" "/p" "app" [] "x").goRun
        (worldOf ["/go/bin/app"] [(Stream.stderr, "boom"), (Stream.stdout, "hi")] []
          Wake.stop none)).exit = Exit.returned :=
  ⟨((goRun_ended (Project.mk "app" "/p" "app" [] "x")
      (worldOf ["/go/bin/app"] [(Stream.stderr, "boom"), (Stream.stdout, "hi")] []
        Wake.stop none) (by decide) rfl rfl rfl).1 rfl).2.1.1 rfl,
   ((goRun_ended (Project.mk "app" "/p" "app" [] "x")
      (worldOf ["/go/bin/app"] [(Stream.stderr, "boom"), (Stream.stdout, "hi")] []
        Wake.stop none) (by decide) rfl rfl rfl).1 rfl).2.2.2.2⟩

/-- C10 (counterexample): a located and started binary.  First run: the stop signal and a
kill that fails with `operation not permitted`: goRun calls fatal "Failed to stop", the
program ends and the only record stamped is the line `hi`, not "Ended".  Second run: the
standard-output stream ends, the kill succeeds, and the scanner of the standard-error
stream stamps the buffered line `late` after teardown: "Ended" is not the last record. -/
theorem goRun_ended_not_last :
    (((Project.mk "app" "/p" "app" [] "").goRun
        (worldOf ["/go/bin/app"] [(Stream.stdout, "hi")] [] Wake.stop
          (some "operation not permitted"))).stamps =
      [{ category := "out", out := { Text := "hi", Typ := "Go Run" } }] ∧
    ((Project.mk "app" "/p" "app" [] "").goRun
        (worldOf ["/go/bin/app"] [(Stream.stdout, "hi")] [] Wake.stop
          (some "operation not permitted"))).fatals =
      [(some "operation not permitted", ["Failed to stop", ":"])] ∧
    ((Project.mk "app" "/p" "app" [] "").goRun
        (worldOf ["/go/bin/app"] [(Stream.stdout, "hi")] [] Wake.stop
          (some "operation not permitted"))).exit = Exit.fatal) ∧
    (((Project.mk "app" "/p" "app" [] "x").goRun
        (worldOf ["/go/bin/app"] [(Stream.stdout, "hi")] [(Stream.stderr, "late")]
          Wake.stopOutput none)).stamps =
      [{ category := "out", out := { Text := "hi", Typ := "Go Run" } }, ended,
       { category := "error", out := { Text := "late", Typ := "Go Run" } }] ∧
    ((Project.mk "app" "/p" "app" [] "x").goRun
        (worldOf ["/go/bin/app"] [(Stream.stdout, "hi")] [(Stream.stderr, "late")]
          Wake.stopOutput none)).stamps.getLast? ≠ some ended ∧
    ((Project.mk "app" "/p" "app" [] "x").goRun
        (worldOf ["/go/bin/app"] [(Stream.stdout, "hi")] [(Stream.stderr, "late")]
          Wake.stopOutput none)).exit = Exit.returned) := by
  decide

end Realize
